import Mathlib

set_option maxRecDepth 4000

/-
Verification of the jpegsegs library (JPEG marker/segment scanning, byte
stuffing, and Multi-Picture Format index handling) against its
natural-language specification.

The Go source (jpegsegs.go) is shallowly embedded: byte streams become
List Nat (each element a byte value), the io.Reader position is threaded
explicitly by returning the unconsumed remainder of the stream, and the
four distinct ways a Go call can end are captured by the JRes type:
  - ok      : normal return
  - fail e  : a non-nil error return (e identifies the Go error message)
  - panicked: a Go runtime panic (out-of-range slice expression)
  - diverge : an infinite loop in the Go code
Machine integers (uint8/uint32) are modelled as Nat with explicit % 256
and % 2^32 reductions exactly where Go truncates.
-/

namespace Jpegsegs

/-- Identifies which Go error value was returned.  Each constructor stands
for one distinct error produced by the source (the Go message is given in
the comment). -/
inductive JErr where
  | eof                   -- io.EOF from a read at end of stream
  | unexpectedEof         -- io.ErrUnexpectedEOF from a partial io.ReadFull
  | soiNotFound           -- "SOI marker not found"
  | ffExpected            -- "0xFF expected in marker"
  | invalidMarkerZero     -- "Invalid marker 0"
  | expectingImageData    -- "Expecting image data"
  | imageTooLarge         -- "Read ~4GB image data without finding a terminating marker"
  | dataTooLong           -- "writeData: data is too long ..."
  | mpfImageCountZero     -- "MPF image count is 0"
  | mpfEntryTooShort      -- "MPF Entry doesn't have 16 bytes for each image"
  | mpfOffsetOverflow     -- "MPF offset overflow"
  | mpfFirstOffsetNotZero -- "First image should have an MPF offset of zero"
  | mpfLaterOffsetZero    -- "Only the first image should have an MPF offset of zero"
deriving DecidableEq

/-- Outcome of running a piece of the Go code: normal return, error
return, runtime panic, or nontermination. -/
inductive JRes (α : Type) where
  | ok : α → JRes α
  | fail : JErr → JRes α
  | panicked : JRes α
  | diverge : JRes α
deriving DecidableEq

namespace JRes

/-- Map over the value of a normal return; any abnormal outcome
propagates unchanged. -/
def map (f : α → β) : JRes α → JRes β
  | .ok a => .ok (f a)
  | .fail e => .fail e
  | .panicked => .panicked
  | .diverge => .diverge

end JRes

/-- WriteImageData (jpegsegs.go): writes the scan-data bytes, emitting a
0x00 after every literal 0xFF byte.  The Go loop writes the run up to and
including each 0xFF and then a single zero byte; byte for byte the output
is exactly this recursion. -/
def writeImageData : List Nat → List Nat
  | [] => []
  | b :: rest =>
    if b = 0xFF then 0xFF :: 0 :: writeImageData rest
    else b :: writeImageData rest

/-- Reference byte-level semantics of the un-stuffing decode: consume
bytes up to (not including) the next marker, turning each 0xFF 0x00
pair into a single 0xFF; a 0xFF followed by anything else is the marker
(the unconsumed remainder starts at its 0xFF); end of stream before a
marker is an io.EOF error, and a lone trailing 0xFF makes the scan loop
forever.  ReadImageData (jpegsegs.go) computes this relation through a
block loop, modelled below; readImageDataLoop_spec connects the two. -/
def unstuffBytes : List Nat → JRes (List Nat × List Nat)
  | [] => .fail .eof
  | b :: rest =>
    if b = 0xFF then
      match rest with
      | [] => .diverge
      | b2 :: rest2 =>
        if b2 = 0 then (unstuffBytes rest2).map (fun p => (0xFF :: p.1, p.2))
        else .ok ([], b :: rest)
    else (unstuffBytes rest).map (fun p => (b :: p.1, p.2))

/-- Outcome of scanning one read block in ReadImageData (jpegsegs.go):
either the block is exhausted and the loop reads the next block
(toNext, with the bytes committed to the output and, when the block's
last byte is an unresolved 0xFF, the seek-back flag that re-reads it at
the start of the next block, jpegsegs.go:219-225), or a marker was
found (found, with the committed bytes and the unconsumed part of the
block starting at the marker's 0xFF). -/
inductive BlockStep where
  | toNext : List Nat → Bool → BlockStep
  | found : List Nat → List Nat → BlockStep
deriving DecidableEq

/-- Commit one output byte in front of a block outcome. -/
def BlockStep.push (c : Nat) : BlockStep → BlockStep
  | .toNext em sb => .toNext (c :: em) sb
  | .found em br => .found (c :: em) br

/-- The NEXTINDEX loop of ReadImageData (jpegsegs.go:211-240) on one
read block: copies bytes, drops the 0x00 of each 0xFF 0x00 escape
(keeping the 0xFF), stops at a 0xFF followed by anything else (a
marker), and flags a 0xFF on the block's last byte for seek-back. -/
def scanBlock : List Nat → BlockStep
  | [] => .toNext [] false
  | [b] => if b = 0xFF then .toNext [] true else .toNext [b] false
  | b :: b2 :: B =>
    if b = 0xFF then
      if b2 = 0 then (scanBlock B).push 0xFF
      else .found [] (b :: b2 :: B)
    else (scanBlock (b2 :: B)).push b

/-- The NEXTBLOCK loop of ReadImageData (jpegsegs.go:200-242): at each
iteration the uint32 accumulator guard bufpos+blocksize < bufpos is
checked (blocksize = 10000) and the "Read ~4GB image data without
finding a terminating marker" error returned when it trips; then one
block of up to 10000 bytes is read (end of stream is an io.EOF error)
and scanned.  The accumulated output acc plays the role of
buf[:bufpos], so acc.length is the Go bufpos (always below 2^32: the
guard fires before it could wrap).  The fuel argument bounds the
iteration count; every iteration consumes at least one stream byte
except re-reading a lone trailing 0xFF, which the Go code repeats
forever, so exhausting fuel of stream length + 1 is exactly the Go
loop's divergence.  On finding a marker the Go code seeks to
readpos+uint32(bufpos+skipped), the position of the marker's 0xFF
whenever the consumed prefix fits in uint32; the model returns that
marker-position suffix directly, and every theorem below stays in the
regime (consumed prefix below 2^32) where the two coincide. -/
def readImageDataLoop : Nat → List Nat → List Nat → JRes (List Nat × List Nat)
  | 0, _, _ => .diverge
  | fuel + 1, acc, stream =>
    if (acc.length + 10000) % 2 ^ 32 < acc.length then .fail .imageTooLarge
    else if stream = [] then .fail .eof
    else
      match scanBlock (stream.take 10000) with
      | .toNext em true => readImageDataLoop fuel (acc ++ em) (0xFF :: stream.drop 10000)
      | .toNext em false => readImageDataLoop fuel (acc ++ em) (stream.drop 10000)
      | .found em br => .ok (acc ++ em, br ++ stream.drop 10000)

/-- ReadImageData (jpegsegs.go:183-243): run the block loop from an
empty output on the whole remaining stream. -/
def readImageData (stream : List Nat) : JRes (List Nat × List Nat) :=
  readImageDataLoop (stream.length + 1) [] stream

/-- A byte list is properly stuffed when every 0xFF byte in it is
immediately followed by a 0x00 byte (in particular it does not end in
0xFF). -/
def stuffedOK : List Nat → Bool
  | [] => true
  | [b] => decide (b ≠ 0xFF)
  | b :: b2 :: rest => (decide (b ≠ 0xFF) || decide (b2 = 0)) && stuffedOK (b2 :: rest)

/-- ReadHeader (jpegsegs.go): consumes 2 bytes via io.ReadFull and checks
they are the SOI signature 0xFF 0xD8; a short read propagates the read
error, a wrong signature is the "SOI marker not found" error. -/
def readHeader : List Nat → JRes (List Nat)
  | [] => .fail .eof
  | [_] => .fail .unexpectedEof
  | b0 :: b1 :: rest =>
    if b0 = 0xFF ∧ b1 = 0xD8 then .ok rest else .fail .soiNotFound

/-- The fill-byte loop of ReadMarker (jpegsegs.go): starting from the
second byte of the marker pair, skips 0xFF fill bytes, rejects a 0x00
marker value, and returns the marker byte with the unconsumed stream. -/
def skipFill : List Nat → JRes (Nat × List Nat)
  | [] => .fail .eof
  | b :: rest =>
    if b = 0xFF then skipFill rest
    else if b = 0 then .fail .invalidMarkerZero
    else .ok (b, rest)

/-- ReadMarker (jpegsegs.go): reads 2 bytes; the first must be 0xFF, then
the fill-skipping loop runs on the second byte onward. -/
def readMarker : List Nat → JRes (Nat × List Nat)
  | [] => .fail .eof
  | [_] => .fail .unexpectedEof
  | b0 :: b1 :: rest =>
    if b0 = 0xFF then skipFill (b1 :: rest) else .fail .ffExpected

/-- ReadData (jpegsegs.go): reads the 2-byte big-endian length field,
computes the Go int length = b0<<8 + b1 - 2, and slices buf[0:length].
When the declared field value is below 2 the computed length is negative
and the slice expression panics at runtime (there is no defensive check
in the source).  Otherwise exactly length payload bytes are read with
io.ReadFull, which fails on a short read. -/
def readData : List Nat → JRes (List Nat × List Nat)
  | [] => .fail .eof
  | [_] => .fail .unexpectedEof
  | l0 :: l1 :: rest =>
    if l0 * 256 + l1 < 2 then .panicked
    else
      let n := l0 * 256 + l1 - 2
      if rest.length < n then .fail (if rest.length = 0 then .eof else .unexpectedEof)
      else .ok (rest.take n, rest.drop n)

/-- WriteData (jpegsegs.go): rejects a payload when payload length + 2
reaches 2<<15 = 65536, else writes the two big-endian length bytes
(each through a byte() cast, hence the % 256) followed by the payload. -/
def writeData (buf : List Nat) : JRes (List Nat) :=
  if buf.length + 2 ≥ 65536 then .fail .dataTooLong
  else .ok ((buf.length + 2) / 256 % 256 :: (buf.length + 2) % 256 :: buf)

/-- State of a Scanner (jpegsegs.go): the unread remainder of the input
stream and the imageData flag ("true when expecting image data: after an
SOS segment or RST marker"). -/
structure ScanState where
  stream : List Nat
  imageData : Bool
deriving DecidableEq

/-- The condition jpegsegs.go assigns to scanner.imageData after reading
a marker: the marker is SOS (0xDA) or a restart code RST0-RST7. -/
def isScanDataMarker (m : Nat) : Bool :=
  m == 0xDA || (decide (0xD0 ≤ m) && decide (m ≤ 0xD7))

/-- The condition under which Scan (jpegsegs.go) returns the marker with
no segment data: EOI, TEM, or a restart code RST0-RST7. -/
def hasNoSegmentData (m : Nat) : Bool :=
  m == 0xD9 || m == 0x01 || (decide (0xD0 ≤ m) && decide (m ≤ 0xD7))

/-- Scanner.Scan (jpegsegs.go).  In the image-data state it runs
ReadImageData, rejects a zero-length result with the "Expecting image
data" error, and otherwise returns pseudo-marker 0 with the data and
clears the flag.  In the marker state it reads a marker, sets the
imageData flag for SOS/RST, returns no-payload markers directly, and
reads the length-prefixed segment for every other marker. -/
def scan (s : ScanState) : JRes ((Nat × Option (List Nat)) × ScanState) :=
  if s.imageData then
    match readImageData s.stream with
    | .ok (data, rest) =>
        if data.length = 0 then .fail .expectingImageData
        else .ok ((0, some data), ⟨rest, false⟩)
    | .fail e => .fail e
    | .panicked => .panicked
    | .diverge => .diverge
  else
    match readMarker s.stream with
    | .ok (m, rest) =>
        if hasNoSegmentData m then .ok ((m, none), ⟨rest, isScanDataMarker m⟩)
        else (readData rest).map (fun p => ((m, some p.1), ⟨p.2, isScanDataMarker m⟩))
    | .fail e => .fail e
    | .panicked => .panicked
    | .diverge => .diverge

/-- Value of a normal return, or the default on any abnormal outcome. -/
def JRes.getD : JRes α → α → α
  | .ok a, _ => a
  | _, d => d

/-- Byte order of a TIFF structure, as used by the external tiff66
tag-directory codec. -/
inductive ByteOrder where
  | bigEndian
  | littleEndian
deriving DecidableEq

/-- Modelled from the spec: 16-bit value encoded in the given byte
order by the external tag-directory codec. -/
def putU16 (order : ByteOrder) (v : Nat) : List Nat :=
  match order with
  | .bigEndian => [v / 256 % 256, v % 256]
  | .littleEndian => [v % 256, v / 256 % 256]

/-- Modelled from the spec: 32-bit value encoded in the given byte
order by the external tag-directory codec. -/
def putU32 (order : ByteOrder) (v : Nat) : List Nat :=
  match order with
  | .bigEndian => [v / 16777216 % 256, v / 65536 % 256, v / 256 % 256, v % 256]
  | .littleEndian => [v % 256, v / 256 % 256, v / 65536 % 256, v / 16777216 % 256]

/-- Modelled from the spec: the external tag-directory codec's 32-bit
field mutator setLong(field, index, value) (tiff66 Field.PutLong):
overwrites the 4 bytes at byte offset 4*i in place, never changing the
field's byte length (an out-of-range index panics in the collaborator;
the model leaves those positions absent, which likewise never changes
the length). -/
def putLong (data : List Nat) (order : ByteOrder) (i v : Nat) : List Nat :=
  let bs := putU32 order v
  ((((data.set (4 * i) (bs.getD 0 0)).set (4 * i + 1) (bs.getD 1 0)).set
      (4 * i + 2) (bs.getD 2 0)).set (4 * i + 3) (bs.getD 3 0))

/-- A field of the external tag-directory codec (tiff66 Field): tag,
type code, value count, raw value bytes. -/
structure Field where
  Tag : Nat
  TypeN : Nat
  Count : Nat
  Data : List Nat
deriving DecidableEq

/-- An IFD node of the external tag-directory codec (tiff66 IFDNode):
byte order and field list (the MPF index is a single flat directory). -/
structure IFDNode where
  Order : ByteOrder
  Fields : List Field
deriving DecidableEq

/-- Tag of the MPF image-count field (jpegsegs.go MPFNumberOfImages). -/
def MPFNumberOfImages : Nat := 0xB001

/-- Tag of the MPF entry-table field (jpegsegs.go MPFEntry). -/
def MPFEntry : Nat := 0xB002

/-- MPFIndex (jpegsegs.go): the MPF base offset and the per-image
absolute offsets and lengths. -/
structure MPFIndex where
  Offset : Nat
  ImageOffsets : List Nat
  ImageLengths : List Nat
deriving DecidableEq

/-- Go uint32 subtraction a - b, wrapping modulo 2^32. -/
def sub32 (a b : Nat) : Nat := (a + 2 ^ 32 - b % 2 ^ 32) % 2 ^ 32

/-- The entry-update loop of MPFIndex.PutToTiff (jpegsegs.go:593-600)
applied to the data bytes of an MPFEntry field: for each image i it
writes the relative offset (absolute minus base when the absolute
offset is positive, else 0) at Long index i*4+2 and then the image
length at Long index i*4+1. -/
def putEntries (mpf : MPFIndex) (order : ByteOrder) (data : List Nat) : List Nat :=
  (List.range mpf.ImageOffsets.length).foldl
    (fun d i =>
      let off := if 0 < mpf.ImageOffsets.getD i 0
                 then sub32 (mpf.ImageOffsets.getD i 0) mpf.Offset else 0
      putLong (putLong d order (i * 4 + 2) off) order (i * 4 + 1)
        (mpf.ImageLengths.getD i 0))
    data

/-- MPFIndex.PutToTiff (jpegsegs.go:590-603): rewrites the entry table
of every field tagged MPFEntry in place; all other fields are left
untouched. -/
def MPFIndex.PutToTiff (mpf : MPFIndex) (node : IFDNode) : IFDNode :=
  ⟨node.Order, node.Fields.map fun f =>
    if f.Tag = MPFEntry then { f with Data := putEntries mpf node.Order f.Data } else f⟩

/-- The length-derivation loop of SetMPFPositions (jpegsegs.go:714-719):
each length is the difference of consecutive offsets (uint32
subtraction) and the last image's length is the end-of-stream position
minus its offset.  (The Go code indexes lengths[count-1] and so panics
on an empty offsets slice; the claims only concern non-empty input.) -/
def deriveLengths : List Nat → Nat → List Nat
  | [], _ => []
  | [x], endPos => [sub32 endPos x]
  | x :: y :: rest, endPos => sub32 y x :: deriveLengths (y :: rest) endPos

/-- SetMPFPositions (jpegsegs.go:713-722): derives the lengths from the
offsets and the end position, then writes offsets and lengths into the
tree via PutToTiff. -/
def SetMPFPositions (mpfTree : IFDNode) (mpfOffset : Nat) (offsets : List Nat) (endPos : Nat) : IFDNode :=
  MPFIndex.PutToTiff ⟨mpfOffset, offsets, deriveLengths offsets endPos⟩ mpfTree

/-- Modelled from the spec: serialization of one directory entry by the
external tag-directory codec (standard TIFF-style layout, 12 bytes per
entry: tag, type, count, then the value bytes if they fit in 4 bytes,
zero padded, or a 4-byte offset placeholder). -/
def serializeField (order : ByteOrder) (f : Field) : List Nat :=
  putU16 order f.Tag ++ putU16 order f.TypeN ++ putU32 order f.Count ++
    (if f.Data.length ≤ 4 then f.Data ++ List.replicate (4 - f.Data.length) 0
     else putU32 order 0)

/-- Modelled from the spec: serialization of a flat tag directory by
the external tag-directory codec (entry count, the 12-byte entries, a
next-directory pointer, then the overflow value bytes of every field
whose data does not fit in 4 bytes).  Its byte length depends only on
the number of fields and each field's data byte length, never on the
byte values (spec: field sizes are fixed by count, not by value). -/
def serializeIFD (order : ByteOrder) (fields : List Field) : List Nat :=
  putU16 order fields.length
    ++ fields.flatMap (serializeField order)
    ++ putU32 order 0
    ++ fields.flatMap (fun f => if 4 < f.Data.length then f.Data else [])

/-- Modelled from the spec: the 8-byte TIFF header written by
tiff.PutHeader (endianness marker, magic 42, directory offset 8). -/
def tiffHeaderBytes (order : ByteOrder) : List Nat :=
  match order with
  | .bigEndian => 77 :: 77 :: (putU16 order 42 ++ putU32 order 8)
  | .littleEndian => 73 :: 73 :: (putU16 order 42 ++ putU32 order 8)

/-- MakeMPFSegment (jpegsegs.go:498-506): the 4-byte MPF header
"MPF\x00", the TIFF header, then the serialized tree. -/
def MakeMPFSegment (tree : IFDNode) : List Nat :=
  [77, 80, 70, 0] ++ tiffHeaderBytes tree.Order ++ serializeIFD tree.Order tree.Fields

/-- Zero value of Field, used as a getD default. -/
def defaultField : Field := ⟨0, 0, 0, []⟩

/-- Concrete MPF entry table for two images: entry 0 with relative
offset 0 and length 50, entry 1 with relative offset 256 and length 60
(big-endian). -/
def sampleEntryBytes : List Nat :=
  [0, 0, 0, 0, 0, 0, 0, 50, 0, 0, 0, 0, 0, 0, 0, 0,
   0, 0, 0, 0, 0, 0, 0, 60, 0, 0, 1, 0, 0, 0, 0, 0]

/-- Concrete MPF index directory with image count 2 and the sample
entry table. -/
def sampleMPFNode : IFDNode :=
  ⟨.bigEndian, [⟨MPFNumberOfImages, 4, 1, [0, 0, 0, 2]⟩, ⟨MPFEntry, 7, 32, sampleEntryBytes⟩]⟩

/-- A heap of byte buffers, making Go slice identity explicit: every
allocated []byte is a slot, and a Go slice value is a slot index.  Used
to state the aliasing behavior of ReadSegments. -/
structure Store where
  bufs : List (List Nat)
deriving DecidableEq

/-- Contents of buffer slot i. -/
def Store.read (σ : Store) (i : Nat) : List Nat := σ.bufs.getD i []

/-- Overwrite buffer slot i in place (Go: reading new data into an
existing slice). -/
def Store.write (σ : Store) (i : Nat) (v : List Nat) : Store := ⟨σ.bufs.set i v⟩

/-- Allocate a fresh buffer holding v (Go: make([]byte, ...)); returns
the new store and the fresh slot's index. -/
def Store.alloc (σ : Store) (v : List Nat) : Store × Nat :=
  (⟨σ.bufs ++ [v]⟩, σ.bufs.length)

/-- Scanner.Scan with the buffer reuse of jpegsegs.go made explicit:
every data-carrying result of Scan is a view of the scanner's own
buffer (both ReadData and ReadImageData fill scanner.buf and return a
slice of it), so a successful data-carrying Scan overwrites the
scanner's slot bufId and hands back that same slot. -/
def scanS (st : ScanState) (bufId : Nat) (σ : Store) :
    JRes ((Nat × Option Nat) × ScanState × Store) :=
  match scan st with
  | .ok ((m, none), st2) => .ok ((m, none), st2, σ)
  | .ok ((m, some d), st2) => .ok ((m, some bufId), st2, σ.write bufId d)
  | .fail e => .fail e
  | .panicked => .panicked
  | .diverge => .diverge

/-- The ReadSegments loop (jpegsegs.go:360-371), reference version: the
(marker, data) values produced by successive Scan calls, stopping after
the SOS marker; paired with the terminating outcome (stop at SOS, or
the propagated Scan failure, with the segments collected so far).  The
fuel argument bounds iteration; exhaustion is reported as divergence
(every successful Scan consumes input, so fuel beyond the stream length
never runs out). -/
def readSegmentsAux : Nat → ScanState → List (Nat × Option (List Nat)) × JRes Unit
  | 0, _ => ([], .diverge)
  | fuel + 1, st =>
    match scan st with
    | .ok ((m, d), st2) =>
        if m = 0xDA then ([(m, d)], .ok ())
        else
          ((m, d) :: (readSegmentsAux fuel st2).1, (readSegmentsAux fuel st2).2)
    | .fail e => ([], .fail e)
    | .panicked => ([], .panicked)
    | .diverge => ([], .diverge)

/-- The ReadSegments loop with explicit buffers: after each successful
Scan the returned chunk (a view of the scanner's buffer, or absent) is
copied into a freshly allocated buffer (Go: cpy := make(...); copy) and
the segment records the fresh slot. -/
def readSegmentsSAux : Nat → ScanState → Nat → Store → List (Nat × Nat) × Store × JRes Unit
  | 0, _, _, σ => ([], σ, .diverge)
  | fuel + 1, st, bufId, σ =>
    match scanS st bufId σ with
    | .ok ((m, d), st2, σ2) =>
        let contents := match d with
          | some i => σ2.read i
          | none => []
        let al := σ2.alloc contents
        if m = 0xDA then ([(m, al.2)], al.1, .ok ())
        else
          ((m, al.2) :: (readSegmentsSAux fuel st2 bufId al.1).1,
            (readSegmentsSAux fuel st2 bufId al.1).2.1,
            (readSegmentsSAux fuel st2 bufId al.1).2.2)
    | .fail e => ([], σ, .fail e)
    | .panicked => ([], σ, .panicked)
    | .diverge => ([], σ, .diverge)

/-- ReadSegments (jpegsegs.go:354-372), reference version over the raw
byte stream: checks the JPEG header then scans to the SOS marker. -/
def readSegments (stream : List Nat) : List (Nat × Option (List Nat)) × JRes Unit :=
  match readHeader stream with
  | .ok rest => readSegmentsAux (rest.length + 1) ⟨rest, false⟩
  | .fail e => ([], .fail e)
  | .panicked => ([], .panicked)
  | .diverge => ([], .diverge)

/-- ReadSegments with explicit buffers: NewScanner allocates the
scanner's 65533-byte buffer, here slot 0 of the store. -/
def readSegmentsS (stream : List Nat) : List (Nat × Nat) × Store × JRes Unit :=
  match readHeader stream with
  | .ok rest =>
      readSegmentsSAux (rest.length + 1) ⟨rest, false⟩ 0 ⟨[List.replicate 65533 0]⟩
  | .fail e => ([], ⟨[List.replicate 65533 0]⟩, .fail e)
  | .panicked => ([], ⟨[List.replicate 65533 0]⟩, .panicked)
  | .diverge => ([], ⟨[List.replicate 65533 0]⟩, .diverge)

end Jpegsegs

namespace Jpegsegs

/-- Helper: a leading non-0xFF byte is copied through by the reference
decoder. -/
theorem unstuffBytes_cons_ne (b : Nat) (l : List Nat) (hb : b ≠ 0xFF) :
    unstuffBytes (b :: l) = (unstuffBytes l).map (fun p => (b :: p.1, p.2)) := by
  cases l with
  | nil => simp [unstuffBytes, hb, JRes.map]
  | cons c rest => simp [unstuffBytes, hb]

/-- Helper: the reference decoder turns a leading 0xFF 0x00 escape into
a single 0xFF. -/
theorem unstuffBytes_escape (l : List Nat) :
    unstuffBytes (0xFF :: 0 :: l) = (unstuffBytes l).map (fun p => (0xFF :: p.1, p.2)) := by
  simp [unstuffBytes]

/-- Helper: the reference decoder stops at a 0xFF followed by a
non-zero byte, consuming nothing. -/
theorem unstuffBytes_marker (b : Nat) (l : List Nat) (hb : b ≠ 0) :
    unstuffBytes (0xFF :: b :: l) = .ok ([], 0xFF :: b :: l) := by
  simp [unstuffBytes, hb]

/-- Reference decoding inverts encoding: after the stuffed form of S,
any marker byte m ≠ 0 terminates the scan, the recovered data is S, and
the stream is left positioned at the marker's 0xFF. -/
theorem unstuffBytes_writeImageData (S : List Nat) (m : Nat) (tail : List Nat)
    (hm : m ≠ 0) :
    unstuffBytes (writeImageData S ++ 0xFF :: m :: tail) = .ok (S, 0xFF :: m :: tail) := by
  induction S with
  | nil =>
      simp [writeImageData, unstuffBytes, hm]
  | cons b rest ih =>
      by_cases hb : b = 0xFF
      · subst hb
        simp [writeImageData, unstuffBytes, ih, JRes.map]
      · rw [writeImageData]
        simp only [hb, if_false, List.cons_append]
        rw [unstuffBytes_cons_ne b _ hb, ih]
        simp [JRes.map]

/-- Helper: mapping twice is mapping the composition. -/
theorem JRes.map_map (f : α → β) (g : β → γ) (r : JRes α) :
    (r.map f).map g = r.map (fun a => g (f a)) := by
  cases r <;> rfl

/-- Helper: inversion of a mapped normal return. -/
theorem JRes.map_eq_ok (f : α → β) (r : JRes α) (b : β) :
    r.map f = .ok b ↔ ∃ a, r = .ok a ∧ b = f a := by
  cases r <;> simp [JRes.map]
  exact eq_comm

/-- Helper: scanning one read block agrees with the reference decoder:
a block consumed without a marker contributes its committed bytes and
continues (re-reading a trailing 0xFF when the seek-back flag is set),
and a marker found inside the block ends the decode with the committed
bytes and the stream positioned at the marker. -/
theorem scanBlock_spec (R : List Nat) :
    ∀ n B, B.length ≤ n →
      (∀ em, scanBlock B = .toNext em false →
        unstuffBytes (B ++ R) = (unstuffBytes R).map (fun p => (em ++ p.1, p.2)))
      ∧ (∀ em, scanBlock B = .toNext em true →
        unstuffBytes (B ++ R) = (unstuffBytes (0xFF :: R)).map (fun p => (em ++ p.1, p.2)))
      ∧ (∀ em br, scanBlock B = .found em br →
        unstuffBytes (B ++ R) = .ok (em, br ++ R)) := by
  intro n
  induction n with
  | zero =>
      intro B hB
      have hBnil : B = [] := List.length_eq_zero.mp (Nat.le_zero.mp hB)
      subst hBnil
      refine ⟨?_, ?_, ?_⟩
      · intro em heq
        rw [scanBlock] at heq
        cases heq
        rw [List.nil_append]
        cases hu : unstuffBytes R <;> simp [JRes.map]
      · intro em heq
        simp [scanBlock] at heq
      · intro em br heq
        simp [scanBlock] at heq
  | succ n ihn =>
      intro B hB
      rcases B with _ | ⟨b, B1⟩
      · refine ⟨?_, ?_, ?_⟩
        · intro em heq
          rw [scanBlock] at heq
          cases heq
          rw [List.nil_append]
          cases hu : unstuffBytes R <;> simp [JRes.map]
        · intro em heq
          simp [scanBlock] at heq
        · intro em br heq
          simp [scanBlock] at heq
      rcases B1 with _ | ⟨b2, B2⟩
      · by_cases hb : b = 0xFF
        · subst hb
          refine ⟨?_, ?_, ?_⟩
          · intro em heq
            simp [scanBlock] at heq
          · intro em heq
            rw [scanBlock, if_pos rfl] at heq
            cases heq
            rw [List.singleton_append]
            cases hu : unstuffBytes (0xFF :: R) <;> simp [JRes.map]
          · intro em br heq
            simp [scanBlock] at heq
        · refine ⟨?_, ?_, ?_⟩
          · intro em heq
            rw [scanBlock, if_neg hb] at heq
            cases heq
            rw [List.singleton_append, unstuffBytes_cons_ne b R hb]
            cases hu : unstuffBytes R <;> simp [JRes.map]
          · intro em heq
            simp [scanBlock, hb] at heq
          · intro em br heq
            simp [scanBlock, hb] at heq
      · have hlen2 : B2.length ≤ n := by simp at hB; omega
        have hlen1 : (b2 :: B2).length ≤ n := by simp at hB ⊢; omega
        by_cases hb : b = 0xFF
        · subst hb
          by_cases h2 : b2 = 0
          · subst h2
            have hdef : scanBlock (0xFF :: 0 :: B2) = (scanBlock B2).push 0xFF := by
              rw [scanBlock]
              norm_num
            refine ⟨?_, ?_, ?_⟩
            · intro em0 heq
              rw [hdef] at heq
              cases hsp : scanBlock B2 with
              | toNext em sb =>
                  rw [hsp] at heq
                  cases sb with
                  | false =>
                      simp [BlockStep.push] at heq
                      subst heq
                      have hrec := (ihn B2 hlen2).1 em hsp
                      rw [List.cons_append, List.cons_append, unstuffBytes_escape,
                        hrec, JRes.map_map]
                      cases hu : unstuffBytes R <;> simp [JRes.map]
                  | true =>
                      simp [BlockStep.push] at heq
              | found em br =>
                  rw [hsp] at heq
                  simp [BlockStep.push] at heq
            · intro em0 heq
              rw [hdef] at heq
              cases hsp : scanBlock B2 with
              | toNext em sb =>
                  rw [hsp] at heq
                  cases sb with
                  | false =>
                      simp [BlockStep.push] at heq
                  | true =>
                      simp [BlockStep.push] at heq
                      subst heq
                      have hrec := (ihn B2 hlen2).2.1 em hsp
                      rw [List.cons_append, List.cons_append, unstuffBytes_escape,
                        hrec, JRes.map_map]
                      cases hu : unstuffBytes (0xFF :: R) <;> simp [JRes.map]
              | found em br =>
                  rw [hsp] at heq
                  simp [BlockStep.push] at heq
            · intro em0 br0 heq
              rw [hdef] at heq
              cases hsp : scanBlock B2 with
              | toNext em sb =>
                  rw [hsp] at heq
                  simp [BlockStep.push] at heq
              | found em br =>
                  rw [hsp] at heq
                  simp [BlockStep.push] at heq
                  obtain ⟨hem, hbr⟩ := heq
                  subst hem
                  subst hbr
                  have hrec := (ihn B2 hlen2).2.2 em br hsp
                  rw [List.cons_append, List.cons_append, unstuffBytes_escape, hrec]
                  simp [JRes.map]
          · have hdef : scanBlock (0xFF :: b2 :: B2) = .found [] (0xFF :: b2 :: B2) := by
              rw [scanBlock]
              simp [h2]
            refine ⟨?_, ?_, ?_⟩
            · intro em0 heq
              rw [hdef] at heq
              cases heq
            · intro em0 heq
              rw [hdef] at heq
              cases heq
            · intro em0 br0 heq
              rw [hdef] at heq
              cases heq
              rw [List.cons_append, List.cons_append, unstuffBytes_marker b2 _ h2]
        · have hdef : scanBlock (b :: b2 :: B2) = (scanBlock (b2 :: B2)).push b := by
            rw [scanBlock, if_neg hb]
          refine ⟨?_, ?_, ?_⟩
          · intro em0 heq
            rw [hdef] at heq
            cases hsp : scanBlock (b2 :: B2) with
            | toNext em sb =>
                rw [hsp] at heq
                cases sb with
                | false =>
                    simp [BlockStep.push] at heq
                    subst heq
                    have hrec := (ihn (b2 :: B2) hlen1).1 em hsp
                    rw [List.cons_append, unstuffBytes_cons_ne b _ hb, hrec, JRes.map_map]
                    cases hu : unstuffBytes R <;> simp [JRes.map]
                | true =>
                    simp [BlockStep.push] at heq
            | found em br =>
                rw [hsp] at heq
                simp [BlockStep.push] at heq
          · intro em0 heq
            rw [hdef] at heq
            cases hsp : scanBlock (b2 :: B2) with
            | toNext em sb =>
                rw [hsp] at heq
                cases sb with
                | false =>
                    simp [BlockStep.push] at heq
                | true =>
                    simp [BlockStep.push] at heq
                    subst heq
                    have hrec := (ihn (b2 :: B2) hlen1).2.1 em hsp
                    rw [List.cons_append, unstuffBytes_cons_ne b _ hb, hrec, JRes.map_map]
                    cases hu : unstuffBytes (0xFF :: R) <;> simp [JRes.map]
            | found em br =>
                rw [hsp] at heq
                simp [BlockStep.push] at heq
          · intro em0 br0 heq
            rw [hdef] at heq
            cases hsp : scanBlock (b2 :: B2) with
            | toNext em sb =>
                rw [hsp] at heq
                simp [BlockStep.push] at heq
            | found em br =>
                rw [hsp] at heq
                simp [BlockStep.push] at heq
                obtain ⟨hem, hbr⟩ := heq
                subst hem
                subst hbr
                have hrec := (ihn (b2 :: B2) hlen1).2.2 em br hsp
                rw [List.cons_append, unstuffBytes_cons_ne b _ hb, hrec]
                simp [JRes.map]

/-- Encoding a 0xFF-free byte sequence is the identity. -/
theorem writeImageData_id (S : List Nat) (h : 0xFF ∉ S) : writeImageData S = S := by
  induction S with
  | nil => simp [writeImageData]
  | cons b rest ih =>
      have hb : b ≠ 0xFF := fun hc => h (hc ▸ List.mem_cons_self b rest)
      have hr : 0xFF ∉ rest := fun hc => h (List.mem_cons_of_mem b hc)
      simp [writeImageData, hb, ih hr]

/-- Helper: prefixing a non-0xFF byte preserves proper stuffing. -/
theorem stuffedOK_cons (b : Nat) (l : List Nat) (hb : b ≠ 0xFF) :
    stuffedOK (b :: l) = stuffedOK l := by
  cases l with
  | nil => simp [stuffedOK, hb]
  | cons c rest => simp [stuffedOK, hb]

/-- The encoded form never contains a 0xFF byte that is not immediately
followed by 0x00. -/
theorem stuffedOK_writeImageData (S : List Nat) : stuffedOK (writeImageData S) = true := by
  induction S with
  | nil => simp [stuffedOK]
  | cons b rest ih =>
      by_cases hb : b = 0xFF
      · subst hb
        rw [writeImageData]
        simp only [if_pos rfl]
        simp only [stuffedOK, Bool.and_eq_true]
        refine ⟨by decide, ?_⟩
        rw [stuffedOK_cons 0 _ (by decide)]
        exact ih
      · rw [writeImageData]
        simp only [hb, if_false]
        rw [stuffedOK_cons _ _ hb]
        exact ih

/-- Helper: the ReadImageData block loop computes the reference decode
whenever the decode succeeds and the output stays well inside the
uint32 accumulator guard, given fuel beyond the stream length. -/
theorem readImageDataLoop_spec :
    ∀ fuel s acc d r,
      unstuffBytes s = .ok (d, r) →
      acc.length + d.length + 10000 < 2 ^ 32 →
      s.length < fuel →
      readImageDataLoop fuel acc s = .ok (acc ++ d, r) := by
  intro fuel
  induction fuel with
  | zero =>
      intro s acc d r _ _ hf
      omega
  | succ fuel ih =>
      intro s acc d r hu hb hf
      rw [readImageDataLoop]
      have hmod : (acc.length + 10000) % 2 ^ 32 = acc.length + 10000 :=
        Nat.mod_eq_of_lt (by omega)
      rw [if_neg (by rw [hmod]; omega)]
      by_cases hs : s = []
      · subst hs
        rw [unstuffBytes] at hu
        cases hu
      · rw [if_neg hs]
        have hpos : 0 < s.length := List.length_pos.mpr hs
        have hspec := scanBlock_spec (s.drop 10000) (s.take 10000).length
          (s.take 10000) (Nat.le_refl _)
        cases hsb : scanBlock (s.take 10000) with
        | toNext em sb =>
            cases sb with
            | false =>
                dsimp only
                have heq := hspec.1 em hsb
                rw [List.take_append_drop] at heq
                rw [heq, JRes.map_eq_ok] at hu
                obtain ⟨a, hu2, hdr⟩ := hu
                obtain ⟨d2, r2⟩ := a
                dsimp only at hdr
                rw [Prod.mk.injEq] at hdr
                obtain ⟨hd, hr⟩ := hdr
                subst hd
                subst hr
                have hfu : (s.drop 10000).length < fuel := by
                  rw [List.length_drop]
                  omega
                have hbd : (acc ++ em).length + d2.length + 10000 < 2 ^ 32 := by
                  rw [List.length_append]
                  rw [List.length_append] at hb
                  omega
                rw [ih (s.drop 10000) (acc ++ em) d2 _ hu2 hbd hfu]
                rw [List.append_assoc]
            | true =>
                dsimp only
                have heq := hspec.2.1 em hsb
                rw [List.take_append_drop] at heq
                rw [heq, JRes.map_eq_ok] at hu
                obtain ⟨a, hu2, hdr⟩ := hu
                obtain ⟨d2, r2⟩ := a
                dsimp only at hdr
                rw [Prod.mk.injEq] at hdr
                obtain ⟨hd, hr⟩ := hdr
                subst hd
                subst hr
                by_cases hone : s.length = 1
                · have hdrop : s.drop 10000 = [] := by
                    apply List.drop_eq_nil_of_le
                    omega
                  rw [hdrop] at hu2
                  simp [unstuffBytes] at hu2
                · have hfu : ((0xFF : Nat) :: s.drop 10000).length < fuel := by
                    rw [List.length_cons, List.length_drop]
                    omega
                  have hbd : (acc ++ em).length + d2.length + 10000 < 2 ^ 32 := by
                    rw [List.length_append]
                    rw [List.length_append] at hb
                    omega
                  rw [ih (0xFF :: s.drop 10000) (acc ++ em) d2 _ hu2 hbd hfu]
                  rw [List.append_assoc]
        | found em br =>
            dsimp only
            have heq := hspec.2.2 em br hsb
            rw [List.take_append_drop] at heq
            rw [heq] at hu
            cases hu
            rfl

/-- Helper: a block without any 0xFF byte is consumed whole, committing
every byte, with no seek-back and no marker. -/
theorem scanBlock_no_ff (B : List Nat) (h : 0xFF ∉ B) : scanBlock B = .toNext B false := by
  induction B with
  | nil => rfl
  | cons b B1 ih =>
      cases B1 with
      | nil =>
          have hb : b ≠ 0xFF := fun hc => h (by simp [hc])
          simp [scanBlock, hb]
      | cons b2 B2 =>
          have hb : b ≠ 0xFF := fun hc => h (by simp [hc])
          have htail : 0xFF ∉ b2 :: B2 := fun hc => h (List.mem_cons_of_mem _ hc)
          rw [scanBlock, if_neg hb, ih htail]
          rfl

/-- Helper: the block loop walks k full blocks of zero bytes, committing
them all, as long as the accumulator stays inside the guard. -/
theorem readImageDataLoop_zero_blocks :
    ∀ k fuel acc tail, acc.length + 10000 * k < 2 ^ 32 →
      readImageDataLoop (fuel + k) acc (List.replicate (10000 * k) 0 ++ tail)
        = readImageDataLoop fuel (acc ++ List.replicate (10000 * k) 0) tail := by
  intro k
  induction k with
  | zero =>
      intro fuel acc tail _
      simp
  | succ k ih =>
      intro fuel acc tail hb
      have hsplit : List.replicate (10000 * (k + 1)) (0 : Nat)
          = List.replicate 10000 0 ++ List.replicate (10000 * k) 0 := by
        rw [← List.replicate_add]
        congr 1
        ring
      rw [hsplit, List.append_assoc]
      rw [show fuel + (k + 1) = (fuel + k) + 1 from rfl, readImageDataLoop]
      have hmod : (acc.length + 10000) % 2 ^ 32 = acc.length + 10000 :=
        Nat.mod_eq_of_lt (by omega)
      rw [if_neg (by rw [hmod]; omega)]
      rw [if_neg (by
        simp only [ne_eq, List.append_eq_nil, List.replicate_eq_nil_iff]
        exact fun hc => absurd hc.1 (by norm_num))]
      have htake : (List.replicate 10000 (0 : Nat)
          ++ (List.replicate (10000 * k) 0 ++ tail)).take 10000
          = List.replicate 10000 0 := by
        rw [List.take_append_of_le_length (by simp only [List.length_replicate, le_refl])]
        rw [List.take_replicate]
        norm_num
      have hdrop : (List.replicate 10000 (0 : Nat)
          ++ (List.replicate (10000 * k) 0 ++ tail)).drop 10000
          = List.replicate (10000 * k) 0 ++ tail := by
        rw [List.drop_append_of_le_length (by simp only [List.length_replicate, le_refl])]
        rw [List.drop_replicate]
        norm_num
      rw [htake, hdrop, scanBlock_no_ff _ (by
        simp only [List.mem_replicate]
        omega)]
      show readImageDataLoop (fuel + k) (acc ++ List.replicate 10000 0)
          (List.replicate (10000 * k) 0 ++ tail) = _
      rw [ih fuel (acc ++ List.replicate 10000 0) tail
        (by rw [List.length_append, List.length_replicate]; omega)]
      rw [List.append_assoc]

/-- C1 counterexample: the round-trip does NOT hold for every byte
sequence.  On 4294960000 scan-data bytes (none of them 0xFF, so the
stuffed form is the data itself) followed by a terminating marker, the
block loop's uint32 accumulator guard bufpos+blocksize < bufpos trips
at the block starting at output position 4294960000 and ReadImageData
returns the "Read ~4GB image data without finding a terminating
marker" error instead of the data. -/
theorem image_data_roundtrip_guard_counterexample :
    readImageData (writeImageData (List.replicate 4294960000 0) ++ 0xFF :: 0xD9 :: [])
      = .fail .imageTooLarge := by
  have hw : writeImageData (List.replicate 4294960000 0) = List.replicate 4294960000 0 :=
    writeImageData_id _ (by
      simp only [List.mem_replicate]
      omega)
  rw [hw, readImageData]
  have hlen : (List.replicate 4294960000 (0 : Nat) ++ 0xFF :: 0xD9 :: []).length + 1
      = 4294530507 + 429496 := by
    rw [List.length_append, List.length_replicate, List.length_cons, List.length_cons,
      List.length_nil]
  have hrep : List.replicate 4294960000 (0 : Nat) = List.replicate (10000 * 429496) 0 :=
    congrArg (fun n => List.replicate n (0 : Nat)) (by norm_num)
  rw [hlen, hrep, readImageDataLoop_zero_blocks 429496 4294530507 [] (0xFF :: 0xD9 :: [])
    (by simp only [List.length_nil]; norm_num)]
  rw [show (4294530507 : Nat) = 4294530506 + 1 by norm_num]
  rw [readImageDataLoop]
  rw [if_pos (by simp only [List.nil_append, List.length_replicate]; norm_num)]

/-- C1 (amended): for every byte sequence S shorter than 2^31 bytes -
comfortably inside the uint32 accumulator guard of the block loop - the
byte-stuffing transform round-trips: decoding the encoded form of S
followed by a terminating marker returns exactly S; encoding a
0xFF-free sequence is the identity; and the encoded form contains no
0xFF byte that is not immediately followed by 0x00. -/
theorem image_data_stuffing_roundtrip (S : List Nat) (m : Nat) (tail : List Nat)
    (hm : m ≠ 0) (hS : S.length < 2 ^ 31) :
    readImageData (writeImageData S ++ 0xFF :: m :: tail) = .ok (S, 0xFF :: m :: tail)
    ∧ (0xFF ∉ S → writeImageData S = S)
    ∧ stuffedOK (writeImageData S) = true := by
  refine ⟨?_, fun h => writeImageData_id S h, stuffedOK_writeImageData S⟩
  rw [readImageData]
  have h := readImageDataLoop_spec ((writeImageData S ++ 0xFF :: m :: tail).length + 1)
    (writeImageData S ++ 0xFF :: m :: tail) [] S (0xFF :: m :: tail)
    (unstuffBytes_writeImageData S m tail hm)
    (by rw [List.length_nil]; omega)
    (by omega)
  rw [h, List.nil_append]

/-- C1 witness: concrete instance with S = [1, 0xFF, 2] and the EOI
marker terminating the scan data. -/
theorem image_data_stuffing_roundtrip_witness :
    readImageData (writeImageData [1, 0xFF, 2] ++ 0xFF :: 0xD9 :: []) = .ok ([1, 0xFF, 2], 0xFF :: 0xD9 :: [])
    ∧ (0xFF ∉ [1, 0xFF, 2] → writeImageData [1, 0xFF, 2] = [1, 0xFF, 2])
    ∧ stuffedOK (writeImageData [1, 0xFF, 2]) = true :=
  image_data_stuffing_roundtrip [1, 0xFF, 2] 0xD9 [] (by decide) (by norm_num)

/-- C2 counterexample: an empty scan-data region is NOT returned as a
zero-length chunk.  After scanning an SOS segment (empty payload) the
scanner is in the image-data state; a marker (here EOI) immediately
follows, and the next Scan fails with the "Expecting image data" error
instead of succeeding with pseudo-marker 0 and a zero-length chunk. -/
theorem scan_empty_scan_region_errors :
    scan ⟨[0xFF, 0xDA, 0x00, 0x02, 0xFF, 0xD9], false⟩
        = .ok ((0xDA, some []), ⟨[0xFF, 0xD9], true⟩)
    ∧ scan ⟨[0xFF, 0xD9], true⟩ = .fail .expectingImageData := by
  decide

/-- C2 amended: whenever the scanner is in the image-data state and a
marker immediately follows (ReadImageData recovers zero bytes), Scan
fails with the "Expecting image data" error rather than returning a
zero-length chunk. -/
theorem scan_empty_scan_region (l l2 : List Nat)
    (h : readImageData l = .ok ([], l2)) :
    scan ⟨l, true⟩ = .fail .expectingImageData := by
  simp [scan, h]

/-- C2 amended witness: two consecutive markers, the second immediately
after the SOS/RST that switched the scanner into the image-data state. -/
theorem scan_empty_scan_region_witness :
    scan ⟨[0xFF, 0xD9], true⟩ = .fail .expectingImageData :=
  scan_empty_scan_region [0xFF, 0xD9] [0xFF, 0xD9] (by decide)

/-- C3 counterexample: Scan after returning the end-of-image marker does
not fail fast; with bytes remaining in the stream the next call simply
reads the next marker and here succeeds (returning a COM segment), so no
PastEndOfImage error exists in the code. -/
theorem scan_after_eoi_succeeds :
    scan ⟨[0xFF, 0xD9, 0xFF, 0xFE, 0x00, 0x02], false⟩
        = .ok ((0xD9, none), ⟨[0xFF, 0xFE, 0x00, 0x02], false⟩)
    ∧ scan ⟨[0xFF, 0xFE, 0x00, 0x02], false⟩ = .ok ((0xFE, some []), ⟨[], false⟩) := by
  decide

/-- C3 amended: the Scanner keeps no terminal state.  A Scan that reads
the EOI marker returns it with no payload and leaves the scanner in the
ordinary marker-reading state on the remaining stream, so a subsequent
Scan is just a fresh marker read (it can succeed if bytes remain). -/
theorem scan_eoi_leaves_plain_state (l rest : List Nat)
    (h : readMarker l = .ok (0xD9, rest)) :
    scan ⟨l, false⟩ = .ok ((0xD9, none), ⟨rest, false⟩) := by
  simp [scan, h, hasNoSegmentData, isScanDataMarker]

/-- C3 amended witness. -/
theorem scan_eoi_leaves_plain_state_witness :
    scan ⟨[0xFF, 0xD9], false⟩ = .ok ((0xD9, none), ⟨[], false⟩) :=
  scan_eoi_leaves_plain_state [0xFF, 0xD9] [] (by decide)

/-- C4: dispatch of Scan in the marker-reading state.  EOI, TEM and the
restart codes are returned with no payload and no length-prefixed read;
every other marker has its length-prefixed segment read; the scanner
enters the scan-data state exactly for SOS and the restart codes. -/
theorem scan_marker_dispatch (l : List Nat) (m : Nat) (rest : List Nat)
    (h : readMarker l = .ok (m, rest)) :
    scan ⟨l, false⟩ =
      (if hasNoSegmentData m then .ok ((m, none), ⟨rest, isScanDataMarker m⟩)
       else (readData rest).map (fun p => ((m, some p.1), ⟨p.2, isScanDataMarker m⟩)))
    ∧ (hasNoSegmentData m = true ↔ (m = 0xD9 ∨ m = 0x01 ∨ (0xD0 ≤ m ∧ m ≤ 0xD7)))
    ∧ (isScanDataMarker m = true ↔ (m = 0xDA ∨ (0xD0 ≤ m ∧ m ≤ 0xD7))) := by
  refine ⟨by simp [scan, h], ?_, ?_⟩
  · simp [hasNoSegmentData, Bool.or_eq_true, beq_iff_eq, Bool.and_eq_true,
      decide_eq_true_eq, or_assoc]
  · simp [isScanDataMarker, Bool.or_eq_true, beq_iff_eq, Bool.and_eq_true,
      decide_eq_true_eq]

/-- C4 witness: a restart marker (RST2, no payload, enters scan-data
state), instantiating the dispatch theorem at a concrete stream. -/
theorem scan_marker_dispatch_witness :
    scan ⟨[0xFF, 0xD2, 0x05], false⟩ =
      (if hasNoSegmentData 0xD2 then .ok ((0xD2, none), ⟨[0x05], isScanDataMarker 0xD2⟩)
       else (readData [0x05]).map (fun p => ((0xD2, some p.1), ⟨p.2, isScanDataMarker 0xD2⟩)))
    ∧ (hasNoSegmentData 0xD2 = true ↔ (0xD2 = 0xD9 ∨ 0xD2 = 0x01 ∨ (0xD0 ≤ 0xD2 ∧ 0xD2 ≤ 0xD7)))
    ∧ (isScanDataMarker 0xD2 = true ↔ (0xD2 = 0xDA ∨ (0xD0 ≤ 0xD2 ∧ 0xD2 ≤ 0xD7))) :=
  scan_marker_dispatch [0xFF, 0xD2, 0x05] 0xD2 [0x05] (by decide)

/-- C5: evaluation of ReadData at the inputs that decide the claim.  A
declared length field below 2 (here 1, and 0) makes the Go source slice
with a negative length and panic - it does not return an InvalidLength
error.  For a declared length L of at least 2 exactly L-2 payload bytes
are read (L=2 gives the empty payload; L=4 with two payload bytes and
one trailing byte consumes exactly the two), and a short read fails with
a truncation error. -/
theorem readData_low_length_panics :
    readData [0x00, 0x01] = .panicked
    ∧ readData [0x00, 0x00] = .panicked
    ∧ readData [0x00, 0x02] = .ok ([], [])
    ∧ readData [0x00, 0x04, 9, 9, 7] = .ok ([9, 9], [7])
    ∧ readData [0x00, 0x04, 9] = .fail .unexpectedEof := by
  decide

/-- C6: WriteData fails with the "too large" error exactly when payload
length + 2 reaches 65536, i.e. payload length at least 65534; with a
payload of at most 65533 bytes it writes the big-endian value
length + 2 in two bytes followed by the payload. -/
theorem writeData_length_limit (buf : List Nat) :
    (writeData buf = .fail .dataTooLong ↔ 65534 ≤ buf.length)
    ∧ (buf.length ≤ 65533 →
        writeData buf = .ok ((buf.length + 2) / 256 % 256 :: (buf.length + 2) % 256 :: buf)) := by
  constructor
  · constructor
    · intro h
      by_cases hc : buf.length + 2 ≥ 65536
      · omega
      · simp [writeData, hc] at h
    · intro h
      have hc : buf.length + 2 ≥ 65536 := by omega
      simp [writeData, hc]
  · intro h
    have hc : ¬ buf.length + 2 ≥ 65536 := by omega
    simp [writeData, hc]

/-- C6 witness: a 65534-byte payload fails, a 65533-byte payload
succeeds and the two length bytes are 0xFF 0xFF (65535 big-endian). -/
theorem writeData_length_limit_witness :
    writeData (List.replicate 65534 0) = .fail .dataTooLong
    ∧ writeData (List.replicate 65533 0) = .ok (255 :: 255 :: List.replicate 65533 0) := by
  refine ⟨(writeData_length_limit (List.replicate 65534 0)).1.mpr
    (by simp only [List.length_replicate, le_refl]), ?_⟩
  have h := (writeData_length_limit (List.replicate 65533 0)).2
    (by simp only [List.length_replicate, le_refl])
  rw [h]
  norm_num

/-- Helper: Go uint32 subtraction agrees with Nat subtraction when there
is no underflow and the minuend fits in 32 bits. -/
theorem sub32_eq_sub (a b : Nat) (hba : b ≤ a) (ha : a < 2 ^ 32) : sub32 a b = a - b := by
  unfold sub32
  have hb : b % 2 ^ 32 = b := Nat.mod_eq_of_lt (lt_of_le_of_lt hba ha)
  rw [hb]
  omega

/-- Helper: the derived lengths are the consecutive differences of the
offsets, the last taken against the end position, whenever the offsets
are in increasing order below the end position and everything fits in
32 bits. -/
theorem deriveLengths_eq (endPos : Nat) (hend : endPos < 2 ^ 32) :
    ∀ offsets : List Nat, (∀ x ∈ offsets, x < 2 ^ 32) →
      List.Chain' (· ≤ ·) (offsets ++ [endPos]) →
      deriveLengths offsets endPos
        = List.zipWith (fun a b => b - a) offsets (offsets.drop 1 ++ [endPos]) := by
  intro offsets
  induction offsets with
  | nil => intro _ _; simp [deriveLengths]
  | cons x xs ih =>
      intro hlt hchain
      cases xs with
      | nil =>
          have hx : x ≤ endPos := by
            rw [List.cons_append, List.nil_append, List.chain'_cons] at hchain
            exact hchain.1
          simp [deriveLengths, sub32_eq_sub endPos x hx hend]
      | cons y rest =>
          have hchain2 : x ≤ y ∧ List.Chain' (· ≤ ·) ((y :: rest) ++ [endPos]) := by
            rw [List.cons_append, List.cons_append, List.chain'_cons] at hchain
            exact ⟨hchain.1, by simpa using hchain.2⟩
          have hy : y < 2 ^ 32 := hlt y (by simp)
          have htail := ih (fun z hz => hlt z (List.mem_cons_of_mem x hz)) hchain2.2
          rw [deriveLengths, htail, sub32_eq_sub y x hchain2.1 hy]
          simp

/-- C8: SetMPFPositions derives each image length as the difference of
consecutive offsets, the final one against the end-of-stream position,
and writes them with the offsets into the tree via PutToTiff; in
particular offsets [0, 1000, 2500] with end 3200 give [1000, 1500,
700]. -/
theorem setMPFPositions_lengths (offsets : List Nat) (endPos : Nat)
    (_hne : offsets ≠ [])
    (hlt : ∀ x ∈ offsets, x < 2 ^ 32)
    (hchain : List.Chain' (· ≤ ·) (offsets ++ [endPos]))
    (hend : endPos < 2 ^ 32) :
    (∀ tree mpfOffset, SetMPFPositions tree mpfOffset offsets endPos
        = MPFIndex.PutToTiff ⟨mpfOffset, offsets, deriveLengths offsets endPos⟩ tree)
    ∧ deriveLengths offsets endPos
        = List.zipWith (fun a b => b - a) offsets (offsets.drop 1 ++ [endPos])
    ∧ deriveLengths [0, 1000, 2500] 3200 = [1000, 1500, 700] := by
  refine ⟨fun tree mpfOffset => rfl, deriveLengths_eq endPos hend offsets hlt hchain, ?_⟩
  decide

/-- C8 witness: the concrete example from the specification. -/
theorem setMPFPositions_lengths_witness :
    deriveLengths [0, 1000, 2500] 3200 = [1000, 1500, 700] :=
  (setMPFPositions_lengths [0, 1000, 2500] 3200 (by decide) (by decide)
    (by simp [List.chain'_cons]) (by decide)).2.2

/-- Helper: setLong preserves the byte length of the field data. -/
theorem putLong_length (data : List Nat) (order : ByteOrder) (i v : Nat) :
    (putLong data order i v).length = data.length := by
  simp [putLong]

/-- Helper: the PutToTiff entry-update loop preserves the byte length of
the entry-table data. -/
theorem putEntries_length (mpf : MPFIndex) (order : ByteOrder) (data : List Nat) :
    (putEntries mpf order data).length = data.length := by
  unfold putEntries
  generalize List.range mpf.ImageOffsets.length = l
  induction l generalizing data with
  | nil => rfl
  | cons a l ih =>
      rw [List.foldl_cons, ih]
      simp [putLong_length]

/-- Helper: every serialized directory entry is 12 bytes. -/
theorem serializeField_length (order : ByteOrder) (f : Field) :
    (serializeField order f).length = 12 := by
  unfold serializeField
  by_cases h : f.Data.length ≤ 4
  · cases order <;> simp [putU16, putU32, h]
  · cases order <;> simp [putU16, putU32, h]

/-- Helper: the 12-byte entries of the serialized directory take 12
bytes per field. -/
theorem flatMap_serializeField_length (order : ByteOrder) (fields : List Field) :
    (fields.flatMap (serializeField order)).length = 12 * fields.length := by
  induction fields with
  | nil => rfl
  | cons f fs ih =>
      rw [List.flatMap_cons, List.length_append, ih, serializeField_length,
        List.length_cons]
      omega

/-- Helper: the overflow area of the serialized directory contributes
the data byte length of each field whose data exceeds 4 bytes. -/
theorem flatMap_overflow_length (fields : List Field) :
    (fields.flatMap fun f => if 4 < f.Data.length then f.Data else []).length
      = (fields.map fun f => if 4 < f.Data.length then f.Data.length else 0).sum := by
  induction fields with
  | nil => rfl
  | cons f fs ih =>
      rw [List.flatMap_cons, List.length_append, ih, List.map_cons, List.sum_cons]
      by_cases h : 4 < f.Data.length <;> simp [h]

/-- Helper: the byte length of the serialized directory is determined by
the field count and the per-field data byte lengths alone. -/
theorem serializeIFD_length (order : ByteOrder) (fields : List Field) :
    (serializeIFD order fields).length
      = 2 + 12 * fields.length + 4
        + (fields.map fun f => if 4 < f.Data.length then f.Data.length else 0).sum := by
  unfold serializeIFD
  rw [List.length_append, List.length_append, List.length_append]
  have h1 : (putU16 order fields.length).length = 2 := by cases order <;> rfl
  have h2 : (putU32 order 0).length = 4 := by cases order <;> rfl
  rw [h1, h2, flatMap_serializeField_length, flatMap_overflow_length]

/-- Helper: byte length of a full MPF segment. -/
theorem makeMPFSegment_length (tree : IFDNode) :
    (MakeMPFSegment tree).length
      = 18 + 12 * tree.Fields.length
        + (tree.Fields.map fun f => if 4 < f.Data.length then f.Data.length else 0).sum := by
  unfold MakeMPFSegment
  rw [List.length_append, List.length_append, serializeIFD_length]
  have h1 : (tiffHeaderBytes tree.Order).length = 8 := by
    cases h : tree.Order <;> simp [tiffHeaderBytes, putU16, putU32]
  rw [h1]
  simp only [List.length_cons, List.length_nil]
  omega

/-- C9: PutToTiff rewrites only the data bytes of MPFEntry-tagged fields
in place: the field count, every field's tag, type, count and data byte
length, and every non-MPFEntry field are unchanged, and consequently
MakeMPFSegment produces a segment of exactly the same byte length after
the update as before. -/
theorem putToTiff_preserves_layout (mpf : MPFIndex) (node : IFDNode) :
    (MPFIndex.PutToTiff mpf node).Order = node.Order
    ∧ (MPFIndex.PutToTiff mpf node).Fields.length = node.Fields.length
    ∧ (∀ j, j < node.Fields.length →
        ((MPFIndex.PutToTiff mpf node).Fields.getD j defaultField).Tag
            = (node.Fields.getD j defaultField).Tag
        ∧ ((MPFIndex.PutToTiff mpf node).Fields.getD j defaultField).TypeN
            = (node.Fields.getD j defaultField).TypeN
        ∧ ((MPFIndex.PutToTiff mpf node).Fields.getD j defaultField).Count
            = (node.Fields.getD j defaultField).Count
        ∧ ((MPFIndex.PutToTiff mpf node).Fields.getD j defaultField).Data.length
            = (node.Fields.getD j defaultField).Data.length
        ∧ ((node.Fields.getD j defaultField).Tag ≠ MPFEntry →
            (MPFIndex.PutToTiff mpf node).Fields.getD j defaultField
              = node.Fields.getD j defaultField))
    ∧ (MakeMPFSegment (MPFIndex.PutToTiff mpf node)).length
        = (MakeMPFSegment node).length := by
  have hfield : ∀ f : Field,
      (if f.Tag = MPFEntry
       then { f with Data := putEntries mpf node.Order f.Data } else f).Tag = f.Tag
      ∧ (if f.Tag = MPFEntry
         then { f with Data := putEntries mpf node.Order f.Data } else f).TypeN = f.TypeN
      ∧ (if f.Tag = MPFEntry
         then { f with Data := putEntries mpf node.Order f.Data } else f).Count = f.Count
      ∧ (if f.Tag = MPFEntry
         then { f with Data := putEntries mpf node.Order f.Data } else f).Data.length
          = f.Data.length := by
    intro f
    by_cases h : f.Tag = MPFEntry <;> simp [h, putEntries_length]
  refine ⟨rfl, by simp [MPFIndex.PutToTiff], ?_, ?_⟩
  · intro j hj
    have hj2 : j < (node.Fields.map fun f =>
        if f.Tag = MPFEntry
        then { f with Data := putEntries mpf node.Order f.Data } else f).length := by
      simpa using hj
    have hnew : (MPFIndex.PutToTiff mpf node).Fields.getD j defaultField
        = (if (node.Fields.getD j defaultField).Tag = MPFEntry
           then { node.Fields.getD j defaultField with
                    Data := putEntries mpf node.Order (node.Fields.getD j defaultField).Data }
           else node.Fields.getD j defaultField) := by
      rw [MPFIndex.PutToTiff]
      rw [List.getD_eq_getElem _ _ hj2, List.getElem_map, List.getD_eq_getElem _ _ hj]
    rw [hnew]
    refine ⟨(hfield _).1, (hfield _).2.1, (hfield _).2.2.1, (hfield _).2.2.2, ?_⟩
    intro hne
    rw [if_neg hne]
  · rw [makeMPFSegment_length, makeMPFSegment_length]
    have hlen : (MPFIndex.PutToTiff mpf node).Fields.length = node.Fields.length := by
      simp [MPFIndex.PutToTiff]
    rw [hlen]
    have hsum : ((MPFIndex.PutToTiff mpf node).Fields.map
          fun f => if 4 < f.Data.length then f.Data.length else 0)
        = (node.Fields.map fun f => if 4 < f.Data.length then f.Data.length else 0) := by
      rw [MPFIndex.PutToTiff]
      rw [List.map_map]
      apply List.map_congr_left
      intro f _
      have := (hfield f).2.2.2
      simp only [Function.comp_apply, this]
    rw [hsum]

/-- Helper: overwriting a slot stores the new contents. -/
theorem Store.read_write_self (σ : Store) (i : Nat) (v : List Nat)
    (h : i < σ.bufs.length) : (σ.write i v).read i = v := by
  unfold Store.write Store.read
  rw [List.getD_eq_getElem _ _ (by simpa using h)]
  simp [List.getElem_set]

/-- Helper: overwriting a slot leaves every other slot unchanged. -/
theorem Store.read_write_ne (σ : Store) (i k : Nat) (v : List Nat)
    (h : k ≠ i) : (σ.write i v).read k = σ.read k := by
  unfold Store.write Store.read
  simp [List.getD, List.getElem?_set_ne (Ne.symm h)]

/-- Helper: writing preserves the number of slots. -/
theorem Store.write_length (σ : Store) (i : Nat) (v : List Nat) :
    (σ.write i v).bufs.length = σ.bufs.length := by
  simp [Store.write]

/-- Helper: a fresh allocation holds the allocated contents. -/
theorem Store.read_alloc_new (σ : Store) (v : List Nat) :
    (σ.alloc v).1.read (σ.alloc v).2 = v := by
  unfold Store.alloc Store.read
  simp [List.getD]

/-- Helper: allocation leaves existing slots unchanged. -/
theorem Store.read_alloc_old (σ : Store) (v : List Nat) (k : Nat)
    (h : k < σ.bufs.length) : (σ.alloc v).1.read k = σ.read k := by
  unfold Store.alloc Store.read
  simp [List.getD, List.getElem?_append_left h]

/-- Helper: allocation adds one slot. -/
theorem Store.alloc_length (σ : Store) (v : List Nat) :
    (σ.alloc v).1.bufs.length = σ.bufs.length + 1 := by
  simp [Store.alloc]

/-- Helper: a successful Scan writes only into the scanner's own slot
and never changes the number of slots. -/
theorem scanS_store (st : ScanState) (bufId : Nat) (σ : Store)
    (res : (Nat × Option Nat) × ScanState × Store)
    (h : scanS st bufId σ = .ok res) :
    res.2.2.bufs.length = σ.bufs.length
    ∧ ∀ k, k ≠ bufId → res.2.2.read k = σ.read k := by
  unfold scanS at h
  cases hs : scan st with
  | ok v =>
      obtain ⟨⟨m, d⟩, st2⟩ := v
      rw [hs] at h
      cases d with
      | none =>
          cases h
          exact ⟨rfl, fun k _ => rfl⟩
      | some dd =>
          cases h
          exact ⟨Store.write_length σ bufId dd,
            fun k hk => Store.read_write_ne σ bufId k dd hk⟩
  | fail e => rw [hs] at h; cases h
  | panicked => rw [hs] at h; cases h
  | diverge => rw [hs] at h; cases h

/-- Helper: the segment-collection loop writes only the scanner's slot;
every other pre-existing slot keeps its contents and the store only
grows. -/
theorem readSegmentsSAux_preserves (fuel : Nat) :
    ∀ st bufId σ,
      σ.bufs.length ≤ (readSegmentsSAux fuel st bufId σ).2.1.bufs.length
      ∧ ∀ k, k ≠ bufId → k < σ.bufs.length →
          (readSegmentsSAux fuel st bufId σ).2.1.read k = σ.read k := by
  induction fuel with
  | zero => intro st bufId σ; exact ⟨Nat.le_refl _, fun k _ _ => rfl⟩
  | succ fuel ih =>
      intro st bufId σ
      rw [readSegmentsSAux]
      cases hs : scanS st bufId σ with
      | ok v =>
          obtain ⟨⟨m, d⟩, st2, σ2⟩ := v
          have hσ2 := scanS_store st bufId σ _ hs
          have hlen : σ2.bufs.length = σ.bufs.length := hσ2.1
          have hreads : ∀ k, k ≠ bufId → σ2.read k = σ.read k := hσ2.2
          dsimp only
          cases d with
          | none =>
              by_cases hm : m = 0xDA
              · rw [if_pos hm]
                refine ⟨?_, ?_⟩
                · dsimp only
                  rw [Store.alloc_length]
                  omega
                · intro k hk hklt
                  dsimp only
                  have hk2 : k < σ2.bufs.length := by omega
                  rw [Store.read_alloc_old _ _ _ hk2, hreads k hk]
              · rw [if_neg hm]
                dsimp only
                have hrec := ih st2 bufId (σ2.alloc []).1
                have hal := Store.alloc_length σ2 ([] : List Nat)
                refine ⟨?_, ?_⟩
                · have h2 := hrec.1
                  omega
                · intro k hk hklt
                  have hk2 : k < σ2.bufs.length := by omega
                  have hk3 : k < (σ2.alloc []).1.bufs.length := by rw [hal]; omega
                  rw [hrec.2 k hk hk3, Store.read_alloc_old _ _ _ hk2, hreads k hk]
          | some i =>
              by_cases hm : m = 0xDA
              · rw [if_pos hm]
                refine ⟨?_, ?_⟩
                · dsimp only
                  rw [Store.alloc_length]
                  omega
                · intro k hk hklt
                  dsimp only
                  have hk2 : k < σ2.bufs.length := by omega
                  rw [Store.read_alloc_old _ _ _ hk2, hreads k hk]
              · rw [if_neg hm]
                dsimp only
                have hrec := ih st2 bufId (σ2.alloc (σ2.read i)).1
                have hal := Store.alloc_length σ2 (σ2.read i)
                refine ⟨?_, ?_⟩
                · have h2 := hrec.1
                  omega
                · intro k hk hklt
                  have hk2 : k < σ2.bufs.length := by omega
                  have hk3 : k < (σ2.alloc (σ2.read i)).1.bufs.length := by
                    rw [hal]; omega
                  rw [hrec.2 k hk hk3, Store.read_alloc_old _ _ _ hk2, hreads k hk]
      | fail e => exact ⟨Nat.le_refl _, fun k _ _ => rfl⟩
      | panicked => exact ⟨Nat.le_refl _, fun k _ _ => rfl⟩
      | diverge => exact ⟨Nat.le_refl _, fun k _ _ => rfl⟩

/-- Helper: the explicit-buffer segment loop simulates the reference
loop: same termination outcome, same number of segments, same markers,
every collected buffer distinct from the scanner's slot, and every
collected buffer's final contents equal to the data value the reference
loop recorded at that step. -/
theorem readSegmentsAux_sim (fuel : Nat) :
    ∀ st bufId σ, bufId < σ.bufs.length →
      (readSegmentsSAux fuel st bufId σ).2.2 = (readSegmentsAux fuel st).2
      ∧ (readSegmentsSAux fuel st bufId σ).1.length = (readSegmentsAux fuel st).1.length
      ∧ ∀ j, j < (readSegmentsSAux fuel st bufId σ).1.length →
          ((readSegmentsSAux fuel st bufId σ).1.getD j (0, 0)).1
              = ((readSegmentsAux fuel st).1.getD j (0, none)).1
          ∧ ((readSegmentsSAux fuel st bufId σ).1.getD j (0, 0)).2 ≠ bufId
          ∧ (readSegmentsSAux fuel st bufId σ).2.1.read
                ((readSegmentsSAux fuel st bufId σ).1.getD j (0, 0)).2
              = (((readSegmentsAux fuel st).1.getD j (0, none)).2).getD [] := by
  induction fuel with
  | zero =>
      intro st bufId σ hb
      exact ⟨rfl, rfl, fun j hj => absurd hj (by simp [readSegmentsSAux])⟩
  | succ fuel ih =>
      intro st bufId σ hb
      rw [readSegmentsSAux, readSegmentsAux]
      cases hsc : scan st with
      | ok v =>
          obtain ⟨⟨m, d⟩, st2⟩ := v
          cases d with
          | none =>
              have hscS : scanS st bufId σ = .ok ((m, none), st2, σ) := by
                unfold scanS
                rw [hsc]
              rw [hscS]
              dsimp only
              by_cases hm : m = 0xDA
              · rw [if_pos hm, if_pos hm]
                refine ⟨rfl, rfl, ?_⟩
                intro j hj
                have hj0 : j = 0 := by
                  simpa using hj
                subst hj0
                refine ⟨rfl, ?_, ?_⟩
                · show (σ.alloc []).2 ≠ bufId
                  unfold Store.alloc
                  omega
                · show (σ.alloc []).1.read (σ.alloc []).2 = _
                  rw [Store.read_alloc_new]
                  rfl
              · rw [if_neg hm, if_neg hm]
                have hb2 : bufId < (σ.alloc []).1.bufs.length := by
                  rw [Store.alloc_length]; omega
                have hrec := ih st2 bufId (σ.alloc []).1 hb2
                have hpres := readSegmentsSAux_preserves fuel st2 bufId (σ.alloc []).1
                refine ⟨hrec.1, by simpa using hrec.2.1, ?_⟩
                intro j hj
                cases j with
                | zero =>
                    refine ⟨rfl, ?_, ?_⟩
                    · show (σ.alloc []).2 ≠ bufId
                      unfold Store.alloc
                      omega
                    · show (readSegmentsSAux fuel st2 bufId (σ.alloc []).1).2.1.read
                          (σ.alloc []).2 = _
                      have hnew : (σ.alloc []).2 ≠ bufId := by
                        unfold Store.alloc; omega
                      have hlt : (σ.alloc []).2 < (σ.alloc []).1.bufs.length := by
                        unfold Store.alloc
                        simp
                      rw [hpres.2 _ hnew hlt, Store.read_alloc_new]
                      rfl
                | succ k =>
                    have hk := hrec.2.2 k (by simpa using hj)
                    simpa using hk
          | some dd =>
              have hscS : scanS st bufId σ = .ok ((m, some bufId), st2, σ.write bufId dd) := by
                unfold scanS
                rw [hsc]
              rw [hscS]
              dsimp only
              have hread : (σ.write bufId dd).read bufId = dd :=
                Store.read_write_self σ bufId dd hb
              rw [hread]
              by_cases hm : m = 0xDA
              · rw [if_pos hm, if_pos hm]
                refine ⟨rfl, rfl, ?_⟩
                intro j hj
                have hj0 : j = 0 := by simpa using hj
                subst hj0
                refine ⟨rfl, ?_, ?_⟩
                · show ((σ.write bufId dd).alloc dd).2 ≠ bufId
                  unfold Store.alloc
                  rw [Store.write_length]
                  omega
                · show ((σ.write bufId dd).alloc dd).1.read
                      ((σ.write bufId dd).alloc dd).2 = _
                  rw [Store.read_alloc_new]
                  rfl
              · rw [if_neg hm, if_neg hm]
                have hb2 : bufId < ((σ.write bufId dd).alloc dd).1.bufs.length := by
                  rw [Store.alloc_length, Store.write_length]
                  omega
                have hrec := ih st2 bufId ((σ.write bufId dd).alloc dd).1 hb2
                have hpres := readSegmentsSAux_preserves fuel st2 bufId
                  ((σ.write bufId dd).alloc dd).1
                refine ⟨hrec.1, by simpa using hrec.2.1, ?_⟩
                intro j hj
                cases j with
                | zero =>
                    have hnew : ((σ.write bufId dd).alloc dd).2 ≠ bufId := by
                      unfold Store.alloc
                      rw [Store.write_length]
                      omega
                    refine ⟨rfl, hnew, ?_⟩
                    show (readSegmentsSAux fuel st2 bufId
                        ((σ.write bufId dd).alloc dd).1).2.1.read
                        ((σ.write bufId dd).alloc dd).2 = _
                    have hlt : ((σ.write bufId dd).alloc dd).2
                        < ((σ.write bufId dd).alloc dd).1.bufs.length := by
                      unfold Store.alloc
                      simp
                    rw [hpres.2 _ hnew hlt, Store.read_alloc_new]
                    rfl
                | succ k =>
                    have hk := hrec.2.2 k (by simpa using hj)
                    simpa using hk
      | fail e =>
          have hscS : scanS st bufId σ = .fail e := by
            unfold scanS
            rw [hsc]
          rw [hscS]
          exact ⟨rfl, rfl, fun j hj => absurd hj (by simp)⟩
      | panicked =>
          have hscS : scanS st bufId σ = .panicked := by
            unfold scanS
            rw [hsc]
          rw [hscS]
          exact ⟨rfl, rfl, fun j hj => absurd hj (by simp)⟩
      | diverge =>
          have hscS : scanS st bufId σ = .diverge := by
            unfold scanS
            rw [hsc]
          rw [hscS]
          exact ⟨rfl, rfl, fun j hj => absurd hj (by simp)⟩

/-- C10: every segment collected by ReadSegments is a fresh copy: its
buffer is distinct from the Scanner's reused buffer (slot 0), and after
the whole traversal each segment's buffer still holds exactly the data
value the corresponding Scan call produced; markers and the final
outcome agree with the reference traversal. -/
theorem readSegments_fresh_copies (stream : List Nat) :
    (readSegmentsS stream).2.2 = (readSegments stream).2
    ∧ (readSegmentsS stream).1.length = (readSegments stream).1.length
    ∧ ∀ j, j < (readSegmentsS stream).1.length →
        ((readSegmentsS stream).1.getD j (0, 0)).1
            = ((readSegments stream).1.getD j (0, none)).1
        ∧ ((readSegmentsS stream).1.getD j (0, 0)).2 ≠ 0
        ∧ (readSegmentsS stream).2.1.read ((readSegmentsS stream).1.getD j (0, 0)).2
            = (((readSegments stream).1.getD j (0, none)).2).getD [] := by
  unfold readSegments readSegmentsS
  cases hh : readHeader stream with
  | ok rest =>
      exact readSegmentsAux_sim (rest.length + 1) ⟨rest, false⟩ 0
        ⟨[List.replicate 65533 0]⟩ (by decide)
  | fail e => exact ⟨rfl, rfl, fun j hj => absurd hj (by simp)⟩
  | panicked => exact ⟨rfl, rfl, fun j hj => absurd hj (by simp)⟩
  | diverge => exact ⟨rfl, rfl, fun j hj => absurd hj (by simp)⟩

/-- C10 witness: a stream with one COM segment (payload [7, 8]) before
the SOS marker; the first collected segment lives in a slot other than
the scanner's slot 0 and still holds [7, 8] after the traversal. -/
theorem readSegments_fresh_copies_witness :
    (readSegmentsS [0xFF, 0xD8, 0xFF, 0xFE, 0x00, 0x04, 7, 8, 0xFF, 0xDA, 0x00, 0x02]).2.1.read
        ((readSegmentsS [0xFF, 0xD8, 0xFF, 0xFE, 0x00, 0x04, 7, 8, 0xFF, 0xDA, 0x00, 0x02]).1.getD
          0 (0, 0)).2 = [7, 8]
    ∧ ((readSegmentsS [0xFF, 0xD8, 0xFF, 0xFE, 0x00, 0x04, 7, 8, 0xFF, 0xDA, 0x00, 0x02]).1.getD
          0 (0, 0)).2 ≠ 0 := by
  have h := readSegments_fresh_copies
    [0xFF, 0xD8, 0xFF, 0xFE, 0x00, 0x04, 7, 8, 0xFF, 0xDA, 0x00, 0x02]
  have h0 := h.2.2 0 (by decide)
  exact ⟨h0.2.2.trans (by decide), h0.2.1⟩

/-- C9 witness: the sample two-image index applied to the sample MPF
directory keeps the segment length and the first field intact. -/
theorem putToTiff_preserves_layout_witness :
    (MakeMPFSegment (MPFIndex.PutToTiff ⟨100, [0, 356], [50, 60]⟩ sampleMPFNode)).length
      = (MakeMPFSegment sampleMPFNode).length
    ∧ ((MPFIndex.PutToTiff ⟨100, [0, 356], [50, 60]⟩ sampleMPFNode).Fields.getD 0
        defaultField).Tag = (sampleMPFNode.Fields.getD 0 defaultField).Tag := by
  have h := putToTiff_preserves_layout ⟨100, [0, 356], [50, 60]⟩ sampleMPFNode
  exact ⟨h.2.2.2, (h.2.2.1 0 (by simp [sampleMPFNode])).1⟩

end Jpegsegs
